import Mathlib

/-!
Verification of the download-and-persist core of the Multi-Service Avatar
Downloader (`src/common_downloader_functions.py`), as a shallow embedding:

* byte buffers are `List Nat` (one entry per byte);
* the filesystem is an explicit state: an association list from paths to
  file contents, plus the set of directories that exist;
* functions of the source that read or mutate the filesystem take the
  state explicitly and return the new state.

The Python functions modelled here are `file_hash`, `is_identical_file`,
`identical_or_same_size_file`, `find_next_available_file_path`,
`save_contents_to_file`, `download_url_to_raw` and
`split_image_into_frames`.
-/

/-- A byte string: one `Nat` per byte. -/
abbrev Bytes := List Nat

/-- Model of an MD5 digest of a byte buffer (`hashlib.md5(b).hexdigest()`).
MD5 is modelled as an abstract injective fingerprint of the content (here,
the content itself); pathological MD5 collisions are not modelled.  All the
properties below depend only on a digest being determined by, and
distinguishing, the hashed bytes. -/
def md5 (b : Bytes) : Bytes := b

/-- A filesystem path, as the source builds one: `folder_path / file_name`.
Names are assumed not to contain the path separator, so path equality is
componentwise equality. -/
structure Pth where
  dir : String
  name : String
deriving DecidableEq, Repr

/-- Filesystem state: files (association list from path to content, first
match wins) and the directories that exist. -/
structure FS where
  files : List (Pth × Bytes)
  dirs : List String
deriving DecidableEq, Repr

/-- Look a path up among the files (first match wins). -/
def fsLookup : List (Pth × Bytes) → Pth → Option Bytes
  | [], _ => none
  | (k, v) :: rest, p => if k = p then some v else fsLookup rest p

/-- Remove every entry at path `p` (there is at most one in a well-formed
state). -/
def fsErase : List (Pth × Bytes) → Pth → List (Pth × Bytes)
  | [], _ => []
  | (k, v) :: rest, p => if k = p then fsErase rest p else (k, v) :: fsErase rest p

/-- Model of `os.path.exists` on a file path. -/
def fsExists (files : List (Pth × Bytes)) (p : Pth) : Bool :=
  (fsLookup files p).isSome

/-- Model of `open(path, "wb").write(content)`: create or truncate-and-overwrite the
file at `p` so it holds exactly `c`. -/
def fsWrite (fs : FS) (p : Pth) (c : Bytes) : FS :=
  { fs with files := (p, c) :: fsErase fs.files p }

/-- Model of `os.rename(old, new)`: the content moves from `old` to `new`; a no-op
state if `old` does not exist (the source never hits that case). -/
def fsRename (fs : FS) (old new : Pth) : FS :=
  match fsLookup fs.files old with
  | none => fs
  | some c => { fs with files := (new, c) :: fsErase (fsErase fs.files old) new }

/-- Model of `os.makedirs(folder, exist_ok=True)` (ancestor creation collapsed to the
one directory the source names). -/
def fsMkdirs (fs : FS) (d : String) : FS :=
  if d ∈ fs.dirs then fs else { fs with dirs := d :: fs.dirs }

/-- The `file: str | Path | bytes` argument taken by the hashing and
identity functions of the source: either a path on disk or an in-memory
byte buffer. -/
inductive FileArg where
  | path (p : Pth)
  | bytes (b : Bytes)
deriving DecidableEq, Repr

/-- Model of `file_hash` (src/common_downloader_functions.py:163-176).
For a bytes argument it returns `hashlib.md5(file).hexdigest()`.
For a path argument the source opens the file and loops
`hashlib.md5().update(chunk)` over 4096-byte chunks — but each iteration
constructs a FRESH md5 object and discards it, and the final
`return hashlib.md5().hexdigest()` is the digest of yet another fresh,
never-updated md5 object: the digest of the empty byte string, whatever the
file holds.  That faithful behaviour is modelled here: an existing file
hashes to `md5 []`; a missing file makes `open` raise (`none`). -/
def file_hash (files : List (Pth × Bytes)) : FileArg → Option Bytes
  | .bytes b => some (md5 b)
  | .path p =>
    match fsLookup files p with
    | none => none
    | some _ => some (md5 [])

/-- Model of `os.path.getsize` for a path, of `len` for a buffer (only meaningful when
the argument exists). -/
def argSize (files : List (Pth × Bytes)) : FileArg → Nat
  | .path p => ((fsLookup files p).getD []).length
  | .bytes b => b.length

/-- Whether the argument "exists": a buffer always does, a path iff the file
does (`os.path.exists`). -/
def argExists (files : List (Pth × Bytes)) : FileArg → Bool
  | .path p => fsExists files p
  | .bytes _ => true

/-- The digest `is_identical_file` computes for one argument: `file_hash`
for a path (hence the buggy empty digest), a direct
`hashlib.md5(file).hexdigest()` for a buffer. -/
def argHash (files : List (Pth × Bytes)) : FileArg → Bytes
  | .path p => (file_hash files (.path p)).getD []
  | .bytes b => md5 b

/-- Model of `is_identical_file` (src/common_downloader_functions.py:179-208):
false if either side is a missing path; otherwise compare sizes when
`size_only`, digests when not. -/
def is_identical_file (files : List (Pth × Bytes)) (file_1 file_2 : FileArg)
    (size_only : Bool) : Bool :=
  if ¬ argExists files file_1 ∨ ¬ argExists files file_2 then false
  else if size_only then decide (argSize files file_1 = argSize files file_2)
  else decide (argHash files file_1 = argHash files file_2)

/-- Model of `identical_or_same_size_file`
(src/common_downloader_functions.py:211-228): both branches of the inner
hash test return `True` (they differ only in what they log), so the result
is the size-only comparison. -/
def identical_or_same_size_file (files : List (Pth × Bytes))
    (file_1 file_2 : FileArg) : Bool :=
  if is_identical_file files file_1 file_2 true then
    if is_identical_file files file_1 file_2 false then true else true
  else false

/-- Index of the last occurrence of `c` in the list, if any. -/
def lastIdxOf (c : Char) : List Char → Option Nat
  | [] => none
  | x :: xs =>
    match lastIdxOf c xs with
    | some i => some (i + 1)
    | none => if x = c then some 0 else none

/-- Model of `os.path.splitext` on a bare file name (no path separators):
split at the last dot, unless every character before it is itself a dot
(so `".hidden"` has no extension), in which case the extension is empty. -/
def splitext (s : String) : String × String :=
  match lastIdxOf '.' s.data with
  | none => (s, "")
  | some i =>
    if (s.data.take i).any (fun ch => decide (ch ≠ '.')) then
      (⟨s.data.take i⟩, ⟨s.data.drop i⟩)
    else (s, "")

/-- The numbered candidate name the probe loop builds:
`f"{file_name_base}_{suffix}{file_name_extension}"`. -/
def suffixName (base : String) (k : Nat) (ext : String) : String :=
  base ++ "_" ++ Nat.repr k ++ ext

/-- The `while True` probe loop of `find_next_available_file_path`
(src/common_downloader_functions.py:254-265), with an explicit fuel
parameter standing for the source's unbounded loop: `none` means the fuel
ran out, which never happens for sufficient fuel — the entry point below
passes enough for any filesystem.  `takeOver` is the source's
`suffix_on_original_file_and_take_its_spot` flag.  The result pairs the
returned path (`none` = the source's `None`, "identical file exists, skip")
with the possibly-renamed filesystem. -/
def fnafpLoop (fs : FS) (file_path : Pth) (file_content : Bytes)
    (base ext : String) (takeOver : Bool) : Nat → Nat → Option (Option Pth × FS)
  | _, 0 => none
  | suffix, fuel + 1 =>
    if ¬ fsExists fs.files ⟨file_path.dir, suffixName base suffix ext⟩ then
      if ¬ takeOver then some (some ⟨file_path.dir, suffixName base suffix ext⟩, fs)
      else some (some file_path, fsRename fs file_path ⟨file_path.dir, suffixName base suffix ext⟩)
    else if identical_or_same_size_file fs.files
        (.path ⟨file_path.dir, suffixName base suffix ext⟩) (.bytes file_content) then
      some (none, fs)
    else
      fnafpLoop fs file_path file_content base ext takeOver (suffix + 1) fuel

/-- Model of `find_next_available_file_path`
(src/common_downloader_functions.py:231-265): ensure the folder exists; if
`folder/file_name` is free return it; if it is occupied by an
identical-or-same-size file return `None`; otherwise probe
`base_2.ext, base_3.ext, …` via `fnafpLoop`. -/
def find_next_available_file_path (fs : FS) (folder_path : String)
    (file_name : String) (file_content : Bytes) (takeOver : Bool) :
    Option (Option Pth × FS) :=
  if ¬ fsExists (fsMkdirs fs folder_path).files ⟨folder_path, file_name⟩ then
    some (some ⟨folder_path, file_name⟩, fsMkdirs fs folder_path)
  else if identical_or_same_size_file (fsMkdirs fs folder_path).files
      (.path ⟨folder_path, file_name⟩) (.bytes file_content) then
    some (none, fsMkdirs fs folder_path)
  else
    fnafpLoop (fsMkdirs fs folder_path) ⟨folder_path, file_name⟩ file_content
      (splitext file_name).1 (splitext file_name).2 takeOver 2
      ((fsMkdirs fs folder_path).files.length + 2)

/-- Model of `save_contents_to_file`
(src/common_downloader_functions.py:268-288): if the file exists and
`overwrite` is false, print an error and return with the filesystem
untouched (no exception, no truncation); otherwise create the missing
parent directory and write the full content. -/
def save_contents_to_file (fs : FS) (file_path : Pth) (file_content : Bytes)
    (overwrite : Bool) : FS :=
  if fsExists fs.files file_path ∧ ¬ overwrite then fs
  else fsWrite (fsMkdirs fs file_path.dir) file_path file_content

/-- An HTTP response as `download_url_to_raw` inspects it: status code and
`Retry-After` header, if any. -/
structure Resp where
  status : Nat
  retryAfter : Option String
deriving DecidableEq, Repr

/-- Model of `response.raise_for_status()`: it raises `HTTPError` exactly for status
codes 400-599 (client and server errors); any other status returns
normally. -/
def raisesForStatus (s : Nat) : Bool := decide (400 ≤ s ∧ s ≤ 599)

/-- Accumulate a decimal digit run; `none` as soon as a non-digit appears. -/
def parseDigitsAux : List Char → Nat → Option Nat
  | [], acc => some acc
  | c :: cs, acc =>
    if c.isDigit then parseDigitsAux cs (10 * acc + (c.toNat - 48)) else none

/-- Model of Python's `int(s)` on the header strings that occur here: an
optional sign followed by a nonempty decimal digit run parses; anything
else raises `ValueError` (`none`).  (Python also strips surrounding
whitespace and allows digit-group underscores; those inputs play no role in
the claims.) -/
def pyInt (s : String) : Option Int :=
  match s.data with
  | [] => none
  | '-' :: cs =>
    if cs = [] then none else (parseDigitsAux cs 0).map (fun n => -(n : Int))
  | '+' :: cs =>
    if cs = [] then none else (parseDigitsAux cs 0).map (fun n => (n : Int))
  | cs => (parseDigitsAux cs 0).map (fun n => (n : Int))

/-- The seconds slept on a 429: the `Retry-After` header value when present
and parseable as an integer (Python's `int(retry_after)`, modelled by
`pyInt`), else the fixed fallback of 10. -/
def retryWait (r : Resp) : Int :=
  match r.retryAfter with
  | none => 10
  | some s =>
    match pyInt s with
    | some n => n
    | none => 10

/-- Outcome of `download_url_to_raw`.  `success k` is the source returning
the response of the `k`-th attempt (0-based); `denied` and `exhausted` are
its two `return None` paths (403, and retries exceeded, where `attempts`
counts the GETs that were issued); `httpError` is the re-raised
`HTTPError`. -/
inductive DlResult where
  | success (attempt : Nat)
  | denied
  | exhausted (attempts : Nat)
  | httpError (status : Nat)
deriving DecidableEq, Repr

/-- The retry loop of `download_url_to_raw`
(src/common_downloader_functions.py:44-72).  `resp n` is the response the
server gives to the `n`-th GET (0-based); `remaining` counts the loop
iterations still allowed.  Returns the outcome with the list of sleep
durations performed, in order. -/
def dlLoop (resp : Nat → Resp) : Nat → Nat → DlResult × List Int
  | attempt, 0 => (.exhausted attempt, [])
  | attempt, remaining + 1 =>
    if ¬ raisesForStatus (resp attempt).status then (.success attempt, [])
    else if (resp attempt).status = 403 then (.denied, [])
    else if (resp attempt).status = 429 then
      ((dlLoop resp (attempt + 1) remaining).1,
        retryWait (resp attempt) :: (dlLoop resp (attempt + 1) remaining).2)
    else (.httpError (resp attempt).status, [])

/-- Model of `download_url_to_raw` (src/common_downloader_functions.py:34-72):
`max_retries = 5` and the loop runs while `retries <= max_retries`, i.e. at
most 6 GETs are issued. -/
def download_url_to_raw (resp : Nat → Resp) : DlResult × List Int :=
  dlLoop resp 0 6

/-- An image as PIL exposes it to `split_image_into_frames`: only the pixel
dimensions matter to the splitting geometry. -/
structure Img where
  width : Nat
  height : Nat
deriving DecidableEq, Repr

/-- Model of `Image.crop((left, upper, right, lower))`: it yields an image of
`(right - left) × (lower - upper)` pixels. -/
def cropSize (left upper right lower : Nat) : Img :=
  ⟨right - left, lower - upper⟩

/-- Model of `split_image_into_frames`
(src/common_downloader_functions.py:111-143): horizontal slicing when
`width > height`, else vertical; `frame_count` slices of extent
`width // frame_count` (resp. `height // frame_count`); the `index`-th
slice is `crop((left, 0, right, height))` (resp. `crop((0, left, width,
right))`) with `left = index * frame_cutoff`, `right = left + frame_cutoff`.
PNG re-encoding preserves dimensions and is not modelled further. -/
def split_image_into_frames (img : Img) (frame_count : Nat) : List Img :=
  let horizontal : Bool := decide (img.width > img.height)
  let frame_cutoff := if horizontal then img.width / frame_count else img.height / frame_count
  (List.range frame_count).map fun index =>
    let left := index * frame_cutoff
    let right := left + frame_cutoff
    if horizontal then cropSize left 0 right img.height
    else cropSize 0 left img.width right

/-!  Supporting lemmas: decimal representations of suffix numbers.  `Nat.repr`
has no injectivity lemma in the library, so we read a decimal string back
into a number and prove the roundtrip. -/

/-- Numeric value of a decimal digit character. -/
def digitVal (c : Char) : Nat := c.toNat - 48

/-- Decimal reading of a character list, the left inverse of `Nat.repr`. -/
def decodeDigits (cs : List Char) : Nat :=
  cs.foldl (fun a c => 10 * a + digitVal c) 0

lemma digitVal_digitChar (d : Nat) (h : d < 10) :
    digitVal (Nat.digitChar d) = d := by
  interval_cases d <;> rfl

lemma foldl_toDigitsCore (fuel : Nat) :
    ∀ n ds, n < fuel →
      (Nat.toDigitsCore 10 fuel n ds).foldl (fun a c => 10 * a + digitVal c) 0 =
        ds.foldl (fun a c => 10 * a + digitVal c) n := by
  induction fuel with
  | zero => intro n ds h; omega
  | succ fuel ih =>
    intro n ds h
    have hmod : n % 10 < 10 := Nat.mod_lt n (by norm_num)
    have hdm : 10 * (n / 10) + n % 10 = n := Nat.div_add_mod n 10
    by_cases h10 : n / 10 = 0
    · have hn : n < 10 := by omega
      simp only [Nat.toDigitsCore, h10, if_pos, List.foldl_cons]
      rw [digitVal_digitChar (n % 10) hmod]
      have : 10 * 0 + n % 10 = n := by omega
      rw [this]
    · have hpos : 0 < n := by omega
      have hlt : n / 10 < fuel := by
        have := Nat.div_lt_self hpos (by norm_num : 1 < 10)
        omega
      simp only [Nat.toDigitsCore, h10, if_neg, ite_false]
      rw [ih (n / 10) (Nat.digitChar (n % 10) :: ds) hlt, List.foldl_cons,
        digitVal_digitChar (n % 10) hmod, hdm]

lemma decodeDigits_repr (n : Nat) : decodeDigits (Nat.repr n).data = n := by
  have h : (Nat.repr n).data = Nat.toDigitsCore 10 (n + 1) n [] := rfl
  rw [decodeDigits, h, foldl_toDigitsCore (n + 1) n [] (Nat.lt_succ_self n)]
  rfl

lemma repr_injective {a b : Nat} (h : Nat.repr a = Nat.repr b) : a = b := by
  have := congrArg (fun s => decodeDigits s.data) h
  simpa [decodeDigits_repr] using this

lemma repr_ne_empty (n : Nat) : Nat.repr n ≠ "" := by
  intro h
  have h0 : n = 0 := by
    have := congrArg (fun s => decodeDigits s.data) h
    simpa [decodeDigits_repr] using this
  subst h0
  exact absurd h (by decide)

lemma length_repr_pos (n : Nat) : 0 < (Nat.repr n).length := by
  rcases Nat.eq_zero_or_pos (Nat.repr n).length with h | h
  · exfalso
    apply repr_ne_empty n
    apply String.ext
    have : (Nat.repr n).data.length = 0 := h
    exact List.length_eq_zero.mp this
  · exact h

lemma suffixName_data (base ext : String) (k : Nat) :
    (suffixName base k ext).data =
      base.data ++ ('_' :: ((Nat.repr k).data ++ ext.data)) := by
  simp [suffixName, String.data_append]

lemma suffixName_inj (base ext : String) {j k : Nat}
    (h : suffixName base j ext = suffixName base k ext) : j = k := by
  have hd := congrArg String.data h
  rw [suffixName_data, suffixName_data] at hd
  have h1 := List.append_cancel_left hd
  have h2 : (Nat.repr j).data ++ ext.data = (Nat.repr k).data ++ ext.data :=
    List.tail_eq_of_cons_eq h1
  have h3 := List.append_cancel_right h2
  exact repr_injective (String.ext h3)

lemma suffixName_ne (base ext : String) (k : Nat) :
    suffixName base k ext ≠ base ++ ext := by
  intro h
  have hlen := congrArg String.length h
  have h1 : ("_" : String).length = 1 := rfl
  rw [suffixName, String.length_append, String.length_append,
    String.length_append, String.length_append, h1] at hlen
  have := length_repr_pos k
  omega

lemma splitext_append (s : String) : (splitext s).1 ++ (splitext s).2 = s := by
  unfold splitext
  cases h : lastIdxOf '.' s.data with
  | none => simp
  | some i =>
    by_cases hany : (s.data.take i).any (fun ch => decide (ch ≠ '.')) = true
    · simp only [hany, if_pos]
      apply String.ext
      rw [String.data_append]
      exact List.take_append_drop i s.data
    · simp only [hany, if_neg, Bool.not_eq_true]
      simp

/-!  Supporting lemmas: the filesystem primitives. -/

lemma fsMkdirs_files (fs : FS) (d : String) : (fsMkdirs fs d).files = fs.files := by
  unfold fsMkdirs
  split <;> rfl

lemma fsLookup_self (p : Pth) (v : Bytes) (l : List (Pth × Bytes)) :
    fsLookup ((p, v) :: l) p = some v := by
  simp [fsLookup]

lemma fsLookup_fsErase_self (l : List (Pth × Bytes)) (q : Pth) :
    fsLookup (fsErase l q) q = none := by
  induction l with
  | nil => rfl
  | cons hd tl ih =>
    obtain ⟨k, v⟩ := hd
    by_cases hk : k = q
    · simpa [fsErase, hk] using ih
    · simp [fsErase, hk, fsLookup, ih]

lemma fsLookup_fsErase_of_ne (l : List (Pth × Bytes)) {q p : Pth} (h : p ≠ q) :
    fsLookup (fsErase l q) p = fsLookup l p := by
  induction l with
  | nil => rfl
  | cons hd tl ih =>
    obtain ⟨k, v⟩ := hd
    by_cases hk : k = q
    · subst hk
      have hkp : ¬ (k = p) := fun hh => h hh.symm
      simp [fsErase, fsLookup, hkp, ih]
    · simp only [fsErase, if_neg hk, fsLookup, ih]

lemma fsLookup_mem_keys :
    ∀ {l : List (Pth × Bytes)} {p : Pth} {d : Bytes},
      fsLookup l p = some d → p ∈ l.map Prod.fst := by
  intro l
  induction l with
  | nil => intro p d h; cases h
  | cons hd tl ih =>
    intro p d h
    obtain ⟨k, v⟩ := hd
    by_cases hk : k = p
    · simp [hk]
    · rw [fsLookup, if_neg hk] at h
      exact List.mem_cons_of_mem _ (ih h)

/-- How `identical_or_same_size_file` behaves on the (path, buffer) pairs the
placer feeds it: the pure size test against the file's content. -/
lemma iss_path_bytes (files : List (Pth × Bytes)) (p : Pth) (c : Bytes) :
    identical_or_same_size_file files (.path p) (.bytes c) =
      match fsLookup files p with
      | none => false
      | some d => decide (d.length = c.length) := by
  cases h : fsLookup files p with
  | none =>
    simp [identical_or_same_size_file, is_identical_file, argExists, fsExists, h]
  | some d =>
    simp [identical_or_same_size_file, is_identical_file, argExists, fsExists, argSize, h]

/-- When the numbered candidates `s, …, k-1` are all occupied by files whose
size differs from the content's and candidate `k` is free, the probe loop
walks them in order and acts at candidate `k`: it returns the candidate
(plain mode) or renames the original file onto it and returns the original
path (take-over mode). -/
lemma fnafpLoop_spec (fs : FS) (file_path : Pth) (content : Bytes)
    (base ext : String) (takeOver : Bool) (k : Nat)
    (hfree : fsLookup fs.files ⟨file_path.dir, suffixName base k ext⟩ = none) :
    ∀ fuel s, s ≤ k → k < s + fuel →
      (∀ j, s ≤ j → j < k →
        ∃ d, fsLookup fs.files ⟨file_path.dir, suffixName base j ext⟩ = some d ∧
          d.length ≠ content.length) →
      fnafpLoop fs file_path content base ext takeOver s fuel =
        some (if takeOver then
                (some file_path,
                  fsRename fs file_path ⟨file_path.dir, suffixName base k ext⟩)
              else (some ⟨file_path.dir, suffixName base k ext⟩, fs)) := by
  intro fuel
  induction fuel with
  | zero => intro s h1 h2 _; omega
  | succ fuel ih =>
    intro s hsk hlt hmid
    by_cases hs : s = k
    · subst hs
      rw [fnafpLoop, if_pos (by simp [fsExists, hfree])]
      by_cases ht : takeOver
      · simp [ht]
      · simp [ht]
    · have hs' : s < k := lt_of_le_of_ne hsk hs
      obtain ⟨d, hd, hlen⟩ := hmid s le_rfl hs'
      rw [fnafpLoop, if_neg (by simp [fsExists, hd]),
        if_neg (by rw [iss_path_bytes, hd]; simp [hlen])]
      exact ih (s + 1) hs' (by omega) (fun j hj1 hj2 => hmid j (by omega) hj2)

/-- Fuel adequacy: candidates `2, …, k-1` occupy pairwise-distinct paths, so
a filesystem holding them all has at least `k - 2` files. -/
lemma candidates_length_le (files : List (Pth × Bytes)) (dir base ext : String)
    (k : Nat)
    (h : ∀ j, 2 ≤ j → j < k →
      ∃ d, fsLookup files ⟨dir, suffixName base j ext⟩ = some d) :
    k - 2 ≤ files.length := by
  have hsub : ((List.range (k - 2)).map fun i =>
      (⟨dir, suffixName base (i + 2) ext⟩ : Pth)) ⊆ files.map Prod.fst := by
    intro x hx
    simp only [List.mem_map, List.mem_range] at hx
    obtain ⟨i, hi, rfl⟩ := hx
    obtain ⟨d, hd⟩ := h (i + 2) (by omega) (by omega)
    exact fsLookup_mem_keys hd
  have hnodup : ((List.range (k - 2)).map fun i =>
      (⟨dir, suffixName base (i + 2) ext⟩ : Pth)).Nodup := by
    refine List.Nodup.map ?_ (List.nodup_range _)
    intro a b hab
    simp only [Pth.mk.injEq] at hab
    have := suffixName_inj base ext hab.2
    omega
  have hle := (List.subperm_of_subset hnodup hsub).length_le
  simpa using hle

/-- Any path the probe loop hands back for writing is free in the state the
loop returns alongside it. -/
lemma fnafpLoop_result_free (fs : FS) (file_path : Pth) (content : Bytes)
    (base ext : String) (takeOver : Bool)
    (hname : file_path.name = base ++ ext) :
    ∀ fuel s p fs',
      fnafpLoop fs file_path content base ext takeOver s fuel = some (some p, fs') →
      fsLookup fs'.files p = none := by
  intro fuel
  induction fuel with
  | zero => intro s p fs' h; simp [fnafpLoop] at h
  | succ fuel ih =>
    intro s p fs' h
    rw [fnafpLoop] at h
    by_cases hex : fsExists fs.files ⟨file_path.dir, suffixName base s ext⟩
    · rw [if_neg (by simpa using hex)] at h
      by_cases hiss : identical_or_same_size_file fs.files
          (.path ⟨file_path.dir, suffixName base s ext⟩) (.bytes content)
      · rw [if_pos hiss] at h
        simp at h
      · rw [if_neg hiss] at h
        exact ih (s + 1) p fs' h
    · rw [if_pos (by simpa using hex)] at h
      by_cases ht : takeOver
      · rw [if_neg (by simp [ht])] at h
        simp only [Option.some.injEq, Prod.mk.injEq] at h
        obtain ⟨hp, hfs'⟩ := h
        subst hp
        subst hfs'
        have hcand : (⟨file_path.dir, suffixName base s ext⟩ : Pth) ≠ file_path := by
          intro hh
          have h2 : suffixName base s ext = file_path.name := congrArg Pth.name hh
          rw [hname] at h2
          exact suffixName_ne base ext s h2
        cases hfp : fsLookup fs.files file_path with
        | none => simp [fsRename, hfp]
        | some c =>
          simp only [fsRename, hfp]
          rw [fsLookup, if_neg hcand,
            fsLookup_fsErase_of_ne _ (fun hh => hcand hh.symm),
            fsLookup_fsErase_self]
      · rw [if_pos (by simp [ht])] at h
        simp only [Option.some.injEq, Prod.mk.injEq] at h
        obtain ⟨hp, hfs'⟩ := h
        subst hp
        subst hfs'
        exact Option.not_isSome_iff_eq_none.mp (by simpa [fsExists] using hex)

/-!  Supporting lemmas: one step of the retry loop, by status class. -/

lemma dlLoop_success (resp : Nat → Resp) (attempt remaining : Nat)
    (h : ¬ raisesForStatus (resp attempt).status = true) :
    dlLoop resp attempt (remaining + 1) = (.success attempt, []) := by
  rw [dlLoop, if_pos h]

lemma dlLoop_denied (resp : Nat → Resp) (attempt remaining : Nat)
    (h : (resp attempt).status = 403) :
    dlLoop resp attempt (remaining + 1) = (.denied, []) := by
  rw [dlLoop, h]
  norm_num [raisesForStatus]

lemma dlLoop_429 (resp : Nat → Resp) (attempt remaining : Nat)
    (h : (resp attempt).status = 429) :
    dlLoop resp attempt (remaining + 1) =
      ((dlLoop resp (attempt + 1) remaining).1,
        retryWait (resp attempt) :: (dlLoop resp (attempt + 1) remaining).2) := by
  rw [dlLoop, h]
  norm_num [raisesForStatus]

/-!  The claims. -/

/-- C1: the claim says hashing a file on disk and hashing the same bytes in
memory yield the same digest.  In the code the path branch of `file_hash`
feeds each chunk to a fresh, discarded md5 object and returns the digest of
yet another fresh one, so an existing file always hashes to the digest of
the empty byte string: on a file holding the single byte 7 the two digests
differ, refuting the claim (and the function's own docstring). -/
theorem C1_file_hash_path_ignores_content :
    file_hash [(⟨"avatars", "a.png"⟩, [7])] (.path ⟨"avatars", "a.png"⟩)
      = some (md5 []) ∧
    file_hash [(⟨"avatars", "a.png"⟩, [7])] (.bytes [7]) = some (md5 [7]) ∧
    md5 [] ≠ md5 [7] := by
  decide

/-- C2: the claim says `is_identical_file a b = true` implies
`identical_or_same_size_file a b = true`.  On two existing files of sizes 1
and 2 the hash comparison uses the buggy `file_hash`, which gives both
paths the empty digest, so `is_identical_file` answers true while the
size-only `identical_or_same_size_file` answers false: the implication
fails on the code. -/
theorem C2_identical_not_below_same_size :
    is_identical_file [(⟨"d", "a"⟩, [7]), (⟨"d", "b"⟩, [7, 7])]
        (.path ⟨"d", "a"⟩) (.path ⟨"d", "b"⟩) false = true ∧
    identical_or_same_size_file [(⟨"d", "a"⟩, [7]), (⟨"d", "b"⟩, [7, 7])]
        (.path ⟨"d", "a"⟩) (.path ⟨"d", "b"⟩) = false := by
  decide

/-- C9: `split_image_into_frames` cuts a 480×120 image into 4 frames of
120×120 (horizontal split, since width > height) and a 120×480 image into
4 frames of 120×120 (vertical split). -/
theorem C9_split_image_frame_dimensions :
    split_image_into_frames ⟨480, 120⟩ 4 =
      [⟨120, 120⟩, ⟨120, 120⟩, ⟨120, 120⟩, ⟨120, 120⟩] ∧
    split_image_into_frames ⟨120, 480⟩ 4 =
      [⟨120, 120⟩, ⟨120, 120⟩, ⟨120, 120⟩, ⟨120, 120⟩] := by
  decide

/-- C6: a 403 on the first attempt makes `download_url_to_raw` return the
no-result value immediately: the answer is `denied` and the list of backoff
waits is empty, so no retry and no sleep happened. -/
theorem C6_denied_immediately_no_retry (resp : Nat → Resp)
    (h : (resp 0).status = 403) :
    download_url_to_raw resp = (.denied, []) := by
  have e0 : download_url_to_raw resp = dlLoop resp 0 (5 + 1) := rfl
  rw [e0, dlLoop, h]
  norm_num [raisesForStatus]

theorem C6_witness : download_url_to_raw (fun _ => ⟨403, none⟩) = (.denied, []) :=
  C6_denied_immediately_no_retry (fun _ => ⟨403, none⟩) rfl

/-- C7, counterexample: HTTP 304 is not a 2xx status and is neither 403 nor
429, yet `download_url_to_raw` does not raise: `raise_for_status` only
raises for 400-599, so the 304 response is returned as a success on the
first attempt — the claim that every other non-2xx status propagates as an
error is false at 304. -/
theorem C7_counterexample_status_304 :
    ¬ (200 ≤ 304 ∧ 304 ≤ 299) ∧ (304 : Nat) ≠ 403 ∧ (304 : Nat) ≠ 429 ∧
    download_url_to_raw (fun _ => ⟨304, none⟩) = (.success 0, []) := by
  decide

/-- C7, amended: for every first response whose status lies in 400..599 and
is neither 403 nor 429, `download_url_to_raw` re-raises the HTTP error
(modelled as the `httpError` outcome) with no retry and no backoff wait;
non-2xx statuses outside 400..599 do not raise. -/
theorem C7_fatal_status_raises (resp : Nat → Resp)
    (h4 : 400 ≤ (resp 0).status) (h5 : (resp 0).status ≤ 599)
    (h403 : (resp 0).status ≠ 403) (h429 : (resp 0).status ≠ 429) :
    download_url_to_raw resp = (.httpError (resp 0).status, []) := by
  have e0 : download_url_to_raw resp = dlLoop resp 0 (5 + 1) := rfl
  have hrs : raisesForStatus (resp 0).status = true := decide_eq_true ⟨h4, h5⟩
  rw [e0, dlLoop, if_neg (by simp [hrs]), if_neg h403, if_neg h429]

theorem C7_fatal_status_raises_witness :
    download_url_to_raw (fun _ => ⟨500, none⟩) = (.httpError 500, []) :=
  C7_fatal_status_raises (fun _ => ⟨500, none⟩)
    (by decide) (by decide) (by decide) (by decide)

/-- C5: the 429 policy.  Two 429 responses carrying `Retry-After: 2`
followed by a 200 yield the success response of the third attempt after
exactly two 2-second waits; six consecutive 429s exhaust the retry budget
(`max_retries = 5`: six attempts, i.e. the first try plus exactly 5
retries) and return the no-result value; a 429 whose `Retry-After` header
is absent, or present but not an integer, is retried after the fixed
10-second fallback. -/
theorem C5_rate_limit_retry_policy :
    (∀ resp : Nat → Resp,
      resp 0 = ⟨429, some "2"⟩ → resp 1 = ⟨429, some "2"⟩ → resp 2 = ⟨200, none⟩ →
      download_url_to_raw resp = (.success 2, [2, 2])) ∧
    (∀ resp : Nat → Resp, (∀ n, n < 6 → resp n = ⟨429, some "2"⟩) →
      download_url_to_raw resp = (.exhausted 6, [2, 2, 2, 2, 2, 2])) ∧
    (∀ resp : Nat → Resp, resp 0 = ⟨429, none⟩ → resp 1 = ⟨200, none⟩ →
      download_url_to_raw resp = (.success 1, [10])) ∧
    (∀ resp : Nat → Resp, resp 0 = ⟨429, some "soon"⟩ → resp 1 = ⟨200, none⟩ →
      download_url_to_raw resp = (.success 1, [10])) := by
  refine ⟨?_, ?_, ?_, ?_⟩
  · intro resp h0 h1 h2
    have e0 : download_url_to_raw resp = dlLoop resp 0 (5 + 1) := rfl
    rw [e0, dlLoop_429 resp 0 5 (by rw [h0])]
    have e1 : dlLoop resp 1 5 = dlLoop resp 1 (4 + 1) := rfl
    rw [e1, dlLoop_429 resp 1 4 (by rw [h1])]
    have e2 : dlLoop resp 2 4 = dlLoop resp 2 (3 + 1) := rfl
    rw [e2, dlLoop_success resp 2 3 (by rw [h2]; decide)]
    rw [h0, h1]
    decide
  · intro resp h
    have e0 : download_url_to_raw resp = dlLoop resp 0 (5 + 1) := rfl
    rw [e0, dlLoop_429 resp 0 5 (by rw [h 0 (by norm_num)])]
    have e1 : dlLoop resp 1 5 = dlLoop resp 1 (4 + 1) := rfl
    rw [e1, dlLoop_429 resp 1 4 (by rw [h 1 (by norm_num)])]
    have e2 : dlLoop resp 2 4 = dlLoop resp 2 (3 + 1) := rfl
    rw [e2, dlLoop_429 resp 2 3 (by rw [h 2 (by norm_num)])]
    have e3 : dlLoop resp 3 3 = dlLoop resp 3 (2 + 1) := rfl
    rw [e3, dlLoop_429 resp 3 2 (by rw [h 3 (by norm_num)])]
    have e4 : dlLoop resp 4 2 = dlLoop resp 4 (1 + 1) := rfl
    rw [e4, dlLoop_429 resp 4 1 (by rw [h 4 (by norm_num)])]
    have e5 : dlLoop resp 5 1 = dlLoop resp 5 (0 + 1) := rfl
    rw [e5, dlLoop_429 resp 5 0 (by rw [h 5 (by norm_num)])]
    have e6 : dlLoop resp 6 0 = (.exhausted 6, []) := rfl
    rw [e6, h 0 (by norm_num), h 1 (by norm_num), h 2 (by norm_num),
      h 3 (by norm_num), h 4 (by norm_num), h 5 (by norm_num)]
    decide
  · intro resp h0 h1
    have e0 : download_url_to_raw resp = dlLoop resp 0 (5 + 1) := rfl
    rw [e0, dlLoop_429 resp 0 5 (by rw [h0])]
    have e1 : dlLoop resp 1 5 = dlLoop resp 1 (4 + 1) := rfl
    rw [e1, dlLoop_success resp 1 4 (by rw [h1]; decide)]
    rw [h0]
    decide
  · intro resp h0 h1
    have e0 : download_url_to_raw resp = dlLoop resp 0 (5 + 1) := rfl
    rw [e0, dlLoop_429 resp 0 5 (by rw [h0])]
    have e1 : dlLoop resp 1 5 = dlLoop resp 1 (4 + 1) := rfl
    rw [e1, dlLoop_success resp 1 4 (by rw [h1]; decide)]
    rw [h0]
    decide

theorem C5_rate_limit_retry_policy_witness :
    download_url_to_raw (fun n => if n < 2 then ⟨429, some "2"⟩ else ⟨200, none⟩)
        = (.success 2, [2, 2]) ∧
    download_url_to_raw (fun _ => ⟨429, some "2"⟩)
        = (.exhausted 6, [2, 2, 2, 2, 2, 2]) ∧
    download_url_to_raw (fun n => if n = 0 then ⟨429, none⟩ else ⟨200, none⟩)
        = (.success 1, [10]) ∧
    download_url_to_raw (fun n => if n = 0 then ⟨429, some "soon"⟩ else ⟨200, none⟩)
        = (.success 1, [10]) :=
  ⟨C5_rate_limit_retry_policy.1 _ rfl rfl rfl,
   C5_rate_limit_retry_policy.2.1 _ (fun _ _ => rfl),
   C5_rate_limit_retry_policy.2.2.1 _ rfl rfl,
   C5_rate_limit_retry_policy.2.2.2 _ rfl rfl⟩

/-- C8: `save_contents_to_file` with `overwrite = false` refuses to touch an
existing file — the filesystem is returned unchanged, with no exception and
no truncation — and on a fresh path it creates the missing parent directory
and writes the full byte content, leaving every other file untouched. -/
theorem C8_save_refuses_overwrite_else_writes (fs : FS) (p : Pth) (c : Bytes) :
    (fsExists fs.files p = true → save_contents_to_file fs p c false = fs) ∧
    (fsExists fs.files p = false →
      fsLookup (save_contents_to_file fs p c false).files p = some c ∧
      p.dir ∈ (save_contents_to_file fs p c false).dirs ∧
      ∀ q, q ≠ p →
        fsLookup (save_contents_to_file fs p c false).files q = fsLookup fs.files q) := by
  constructor
  · intro h
    rw [save_contents_to_file, if_pos ⟨h, by simp⟩]
  · intro h
    have hnot : ¬ (fsExists fs.files p = true ∧ ¬ (false : Bool) = true) := by
      simp [h]
    rw [save_contents_to_file, if_neg hnot]
    refine ⟨by simp [fsWrite, fsLookup], ?_, ?_⟩
    · by_cases hd : p.dir ∈ fs.dirs
      · simp [fsWrite, fsMkdirs, hd]
      · simp [fsWrite, fsMkdirs, hd]
    · intro q hq
      have hfiles : (fsWrite (fsMkdirs fs p.dir) p c).files = (p, c) :: fsErase fs.files p := by
        simp [fsWrite, fsMkdirs_files]
      rw [hfiles, fsLookup, if_neg (fun hh => hq hh.symm),
        fsLookup_fsErase_of_ne _ hq]

theorem C8_save_witness :
    save_contents_to_file ⟨[(⟨"d", "x"⟩, [1])], []⟩ ⟨"d", "x"⟩ [2, 2] false
        = ⟨[(⟨"d", "x"⟩, [1])], []⟩ ∧
    fsLookup (save_contents_to_file ⟨[], []⟩ ⟨"d", "x"⟩ [2, 2] false).files ⟨"d", "x"⟩
        = some [2, 2] :=
  ⟨(C8_save_refuses_overwrite_else_writes ⟨[(⟨"d", "x"⟩, [1])], []⟩ ⟨"d", "x"⟩ [2, 2]).1
      (by decide),
   ((C8_save_refuses_overwrite_else_writes ⟨[], []⟩ ⟨"d", "x"⟩ [2, 2]).2 (by decide)).1⟩

/-- Writing into a fresh slot of an otherwise empty folder. -/
lemma save_to_fresh (folder name : String) (c : Bytes) :
    save_contents_to_file ⟨[], [folder]⟩ ⟨folder, name⟩ c false
      = ⟨[(⟨folder, name⟩, c)], [folder]⟩ := by
  rw [save_contents_to_file, if_neg (by simp [fsExists, fsLookup])]
  simp [fsWrite, fsMkdirs, fsErase]

/-- A numbered candidate name never collides with the name it was derived
from. -/
lemma suffixName_ne_name (name : String) (k : Nat) :
    suffixName (splitext name).1 k (splitext name).2 ≠ name := by
  intro h
  have h2 := splitext_append name
  exact suffixName_ne (splitext name).1 (splitext name).2 k (h.trans h2.symm)

/-- C3: placement without take-over.  On an empty folder the desired path is
returned as is; once that content is on disk, a second call with content of
the same length (in particular byte-identical content) is answered `None`;
a call with content of a different length returns the `_2` candidate.  In
general, when candidates `2..k-1` are all occupied by files whose sizes
differ from the content's (distinct, non-identical variants) and candidate
`k` is the first free one, the probe returns exactly candidate `k`:
suffixes are explored in strictly increasing order and the first free slot
wins. -/
theorem C3_find_next_plain_policy :
    (∀ (folder name : String) (c₁ c₂ : Bytes), c₁.length ≠ c₂.length →
      find_next_available_file_path ⟨[], []⟩ folder name c₁ false
          = some (some ⟨folder, name⟩, ⟨[], [folder]⟩) ∧
      find_next_available_file_path
          (save_contents_to_file ⟨[], [folder]⟩ ⟨folder, name⟩ c₁ false)
          folder name c₁ false
          = some (none, save_contents_to_file ⟨[], [folder]⟩ ⟨folder, name⟩ c₁ false) ∧
      find_next_available_file_path
          (save_contents_to_file ⟨[], [folder]⟩ ⟨folder, name⟩ c₁ false)
          folder name c₂ false
          = some (some ⟨folder, suffixName (splitext name).1 2 (splitext name).2⟩,
              save_contents_to_file ⟨[], [folder]⟩ ⟨folder, name⟩ c₁ false)) ∧
    (∀ (fs : FS) (folder name : String) (content d : Bytes) (k : Nat),
      2 ≤ k →
      fsLookup fs.files ⟨folder, name⟩ = some d →
      d.length ≠ content.length →
      (∀ j, 2 ≤ j → j < k →
        ∃ dj, fsLookup fs.files
            ⟨folder, suffixName (splitext name).1 j (splitext name).2⟩ = some dj ∧
          dj.length ≠ content.length) →
      fsLookup fs.files ⟨folder, suffixName (splitext name).1 k (splitext name).2⟩
          = none →
      find_next_available_file_path fs folder name content false
          = some (some ⟨folder, suffixName (splitext name).1 k (splitext name).2⟩,
              fsMkdirs fs folder)) := by
  constructor
  · intro folder name c₁ c₂ hlen
    rw [save_to_fresh]
    have hmk : fsMkdirs (⟨[(⟨folder, name⟩, c₁)], [folder]⟩ : FS) folder
        = ⟨[(⟨folder, name⟩, c₁)], [folder]⟩ := by
      simp [fsMkdirs]
    have hcand_ne : (⟨folder, suffixName (splitext name).1 2 (splitext name).2⟩ : Pth)
        ≠ ⟨folder, name⟩ := by
      intro hh
      exact suffixName_ne_name name 2 (congrArg Pth.name hh)
    refine ⟨?_, ?_, ?_⟩
    · rw [find_next_available_file_path,
        if_pos (by simp [fsMkdirs_files, fsExists, fsLookup])]
      simp [fsMkdirs]
    · rw [find_next_available_file_path, hmk,
        if_neg (by simp [fsExists, fsLookup]),
        if_pos (by rw [iss_path_bytes]; simp [fsLookup])]
    · rw [find_next_available_file_path, hmk,
        if_neg (by simp [fsExists, fsLookup]),
        if_neg (by rw [iss_path_bytes]; simp [fsLookup, hlen])]
      have hfree : fsLookup (⟨[(⟨folder, name⟩, c₁)], [folder]⟩ : FS).files
          ⟨(⟨folder, name⟩ : Pth).dir,
            suffixName (splitext name).1 2 (splitext name).2⟩ = none := by
        rw [fsLookup, if_neg (fun hh => hcand_ne hh.symm)]
        rfl
      have hspec := fnafpLoop_spec (⟨[(⟨folder, name⟩, c₁)], [folder]⟩ : FS)
        ⟨folder, name⟩ c₂ (splitext name).1 (splitext name).2 false 2 hfree
        ((⟨[(⟨folder, name⟩, c₁)], [folder]⟩ : FS).files.length + 2) 2 le_rfl
        (by simp)
        (fun j hj1 hj2 => absurd hj2 (by omega))
      simpa using hspec
  · intro fs folder name content d k hk h0 hlen hmid hfree
    have hf := fsMkdirs_files fs folder
    have hb : k - 2 ≤ fs.files.length :=
      candidates_length_le fs.files folder (splitext name).1 (splitext name).2 k
        (fun j hj1 hj2 => ⟨(hmid j hj1 hj2).choose, (hmid j hj1 hj2).choose_spec.1⟩)
    rw [find_next_available_file_path,
      if_neg (by simp [hf, fsExists, h0]),
      if_neg (by rw [hf, iss_path_bytes, h0]; simp [hlen])]
    have hspec := fnafpLoop_spec (fsMkdirs fs folder) ⟨folder, name⟩ content
      (splitext name).1 (splitext name).2 false k (by rw [hf]; exact hfree)
      ((fsMkdirs fs folder).files.length + 2) 2 hk (by rw [hf]; omega)
      (fun j hj1 hj2 => by rw [hf]; exact hmid j hj1 hj2)
    simpa using hspec

theorem C3_find_next_plain_policy_witness :
    find_next_available_file_path ⟨[], []⟩ "f" "img.png" [1] false
        = some (some ⟨"f", "img.png"⟩, ⟨[], ["f"]⟩) ∧
    find_next_available_file_path
        ⟨[(⟨"f", "img.png"⟩, [1]), (⟨"f", "img_2.png"⟩, [2, 2])], ["f"]⟩
        "f" "img.png" [3, 3, 3] false
        = some (some ⟨"f", suffixName (splitext "img.png").1 3 (splitext "img.png").2⟩,
            fsMkdirs ⟨[(⟨"f", "img.png"⟩, [1]), (⟨"f", "img_2.png"⟩, [2, 2])], ["f"]⟩
              "f") := by
  constructor
  · exact (C3_find_next_plain_policy.1 "f" "img.png" [1] [2, 2] (by decide)).1
  · refine C3_find_next_plain_policy.2
      ⟨[(⟨"f", "img.png"⟩, [1]), (⟨"f", "img_2.png"⟩, [2, 2])], ["f"]⟩
      "f" "img.png" [3, 3, 3] [1] 3 (by decide) (by decide) (by decide) ?_ (by decide)
    intro j hj1 hj2
    have hj : j = 2 := by omega
    subst hj
    exact ⟨[2, 2], by decide, by decide⟩

/-- C4: placement with take-over.  In general, when `folder/name` is
occupied by content of a different size and candidate `k` is the first free
numbered slot, the call renames the occupant to candidate `k` and returns
`folder/name` as the write target: afterwards the original path is free,
the displaced content survives intact under the candidate (moved by rename,
never truncated or deleted) and every other file is untouched.  In the
two-write scenario, writing `c₁` and then placing different-size `c₂` with
take-over leaves `folder/name` holding the most recent content `c₂` and the
previous content `c₁` surviving under the `_2` name. -/
theorem C4_find_next_take_over_policy :
    (∀ (fs : FS) (folder name : String) (content d : Bytes) (k : Nat),
      2 ≤ k →
      fsLookup fs.files ⟨folder, name⟩ = some d →
      d.length ≠ content.length →
      (∀ j, 2 ≤ j → j < k →
        ∃ dj, fsLookup fs.files
            ⟨folder, suffixName (splitext name).1 j (splitext name).2⟩ = some dj ∧
          dj.length ≠ content.length) →
      fsLookup fs.files ⟨folder, suffixName (splitext name).1 k (splitext name).2⟩
          = none →
      ∃ fs' : FS,
        find_next_available_file_path fs folder name content true
            = some (some ⟨folder, name⟩, fs') ∧
        fsLookup fs'.files ⟨folder, suffixName (splitext name).1 k (splitext name).2⟩
            = some d ∧
        fsLookup fs'.files ⟨folder, name⟩ = none ∧
        (∀ q : Pth, q ≠ ⟨folder, name⟩ →
          q ≠ ⟨folder, suffixName (splitext name).1 k (splitext name).2⟩ →
          fsLookup fs'.files q = fsLookup fs.files q)) ∧
    (∀ (folder name : String) (c₁ c₂ : Bytes), c₁.length ≠ c₂.length →
      find_next_available_file_path
          (save_contents_to_file ⟨[], [folder]⟩ ⟨folder, name⟩ c₁ false)
          folder name c₂ true
          = some (some ⟨folder, name⟩,
              ⟨[(⟨folder, suffixName (splitext name).1 2 (splitext name).2⟩, c₁)],
                [folder]⟩) ∧
      fsLookup (save_contents_to_file
          (⟨[(⟨folder, suffixName (splitext name).1 2 (splitext name).2⟩, c₁)],
            [folder]⟩ : FS)
          ⟨folder, name⟩ c₂ false).files ⟨folder, name⟩ = some c₂ ∧
      fsLookup (save_contents_to_file
          (⟨[(⟨folder, suffixName (splitext name).1 2 (splitext name).2⟩, c₁)],
            [folder]⟩ : FS)
          ⟨folder, name⟩ c₂ false).files
          ⟨folder, suffixName (splitext name).1 2 (splitext name).2⟩ = some c₁) := by
  constructor
  · intro fs folder name content d k hk h0 hlen hmid hfree
    have hf := fsMkdirs_files fs folder
    have hb : k - 2 ≤ fs.files.length :=
      candidates_length_le fs.files folder (splitext name).1 (splitext name).2 k
        (fun j hj1 hj2 => ⟨(hmid j hj1 hj2).choose, (hmid j hj1 hj2).choose_spec.1⟩)
    have hcand_ne : (⟨folder, suffixName (splitext name).1 k (splitext name).2⟩ : Pth)
        ≠ ⟨folder, name⟩ := by
      intro hh
      exact suffixName_ne_name name k (congrArg Pth.name hh)
    have hrn : (fsRename (fsMkdirs fs folder) ⟨folder, name⟩
        ⟨folder, suffixName (splitext name).1 k (splitext name).2⟩).files
        = (⟨folder, suffixName (splitext name).1 k (splitext name).2⟩, d)
            :: fsErase (fsErase fs.files ⟨folder, name⟩)
              ⟨folder, suffixName (splitext name).1 k (splitext name).2⟩ := by
      rw [fsRename, hf, h0]
    refine ⟨fsRename (fsMkdirs fs folder) ⟨folder, name⟩
      ⟨folder, suffixName (splitext name).1 k (splitext name).2⟩, ?_, ?_, ?_, ?_⟩
    · rw [find_next_available_file_path,
        if_neg (by simp [hf, fsExists, h0]),
        if_neg (by rw [hf, iss_path_bytes, h0]; simp [hlen])]
      have hspec := fnafpLoop_spec (fsMkdirs fs folder) ⟨folder, name⟩ content
        (splitext name).1 (splitext name).2 true k (by rw [hf]; exact hfree)
        ((fsMkdirs fs folder).files.length + 2) 2 hk (by rw [hf]; omega)
        (fun j hj1 hj2 => by rw [hf]; exact hmid j hj1 hj2)
      simpa using hspec
    · rw [hrn, fsLookup, if_pos rfl]
    · rw [hrn, fsLookup, if_neg hcand_ne,
        fsLookup_fsErase_of_ne _ (fun hh => hcand_ne hh.symm),
        fsLookup_fsErase_self]
    · intro q hq1 hq2
      rw [hrn, fsLookup, if_neg (fun hh => hq2 hh.symm),
        fsLookup_fsErase_of_ne _ hq2, fsLookup_fsErase_of_ne _ hq1]
  · intro folder name c₁ c₂ hlen
    rw [save_to_fresh]
    have hmk : fsMkdirs (⟨[(⟨folder, name⟩, c₁)], [folder]⟩ : FS) folder
        = ⟨[(⟨folder, name⟩, c₁)], [folder]⟩ := by
      simp [fsMkdirs]
    have hcand_ne : (⟨folder, suffixName (splitext name).1 2 (splitext name).2⟩ : Pth)
        ≠ ⟨folder, name⟩ := by
      intro hh
      exact suffixName_ne_name name 2 (congrArg Pth.name hh)
    refine ⟨?_, ?_, ?_⟩
    · rw [find_next_available_file_path, hmk,
        if_neg (by simp [fsExists, fsLookup]),
        if_neg (by rw [iss_path_bytes]; simp [fsLookup, hlen])]
      have hfree : fsLookup (⟨[(⟨folder, name⟩, c₁)], [folder]⟩ : FS).files
          ⟨(⟨folder, name⟩ : Pth).dir,
            suffixName (splitext name).1 2 (splitext name).2⟩ = none := by
        rw [fsLookup, if_neg (fun hh => hcand_ne hh.symm)]
        rfl
      have hspec := fnafpLoop_spec (⟨[(⟨folder, name⟩, c₁)], [folder]⟩ : FS)
        ⟨folder, name⟩ c₂ (splitext name).1 (splitext name).2 true 2 hfree
        ((⟨[(⟨folder, name⟩, c₁)], [folder]⟩ : FS).files.length + 2) 2 le_rfl
        (by simp)
        (fun j hj1 hj2 => absurd hj2 (by omega))
      have hrn : fsRename (⟨[(⟨folder, name⟩, c₁)], [folder]⟩ : FS) ⟨folder, name⟩
          ⟨folder, suffixName (splitext name).1 2 (splitext name).2⟩
          = ⟨[(⟨folder, suffixName (splitext name).1 2 (splitext name).2⟩, c₁)],
              [folder]⟩ := by
        rw [fsRename]
        simp [fsLookup, fsErase]
      rw [hspec]
      simp [hrn]
    · rw [save_contents_to_file,
        if_neg (by simp [fsExists, fsLookup, hcand_ne])]
      simp only [fsWrite, fsMkdirs_files]
      rw [fsLookup, if_pos rfl]
    · rw [save_contents_to_file,
        if_neg (by simp [fsExists, fsLookup, hcand_ne])]
      simp only [fsWrite, fsMkdirs_files]
      rw [fsLookup, if_neg hcand_ne.symm,
        fsLookup_fsErase_of_ne _ hcand_ne, fsLookup, if_pos rfl]

theorem C4_find_next_take_over_policy_witness :
    (∃ fs' : FS,
      find_next_available_file_path ⟨[(⟨"f", "img.png"⟩, [1])], ["f"]⟩
          "f" "img.png" [2, 2] true
          = some (some ⟨"f", "img.png"⟩, fs') ∧
      fsLookup fs'.files
          ⟨"f", suffixName (splitext "img.png").1 2 (splitext "img.png").2⟩
          = some [1] ∧
      fsLookup fs'.files ⟨"f", "img.png"⟩ = none ∧
      (∀ q : Pth, q ≠ ⟨"f", "img.png"⟩ →
        q ≠ ⟨"f", suffixName (splitext "img.png").1 2 (splitext "img.png").2⟩ →
        fsLookup fs'.files q
          = fsLookup (⟨[(⟨"f", "img.png"⟩, [1])], ["f"]⟩ : FS).files q)) ∧
    fsLookup (save_contents_to_file
        (⟨[(⟨"f", suffixName (splitext "img.png").1 2 (splitext "img.png").2⟩, [1])],
          ["f"]⟩ : FS)
        ⟨"f", "img.png"⟩ [2, 2] false).files ⟨"f", "img.png"⟩ = some [2, 2] := by
  constructor
  · refine C4_find_next_take_over_policy.1 ⟨[(⟨"f", "img.png"⟩, [1])], ["f"]⟩
      "f" "img.png" [2, 2] [1] 2 (by decide) (by decide) (by decide) ?_ (by decide)
    intro j hj1 hj2
    exact absurd hj2 (by omega)
  · exact (C4_find_next_take_over_policy.2 "f" "img.png" [1] [2, 2] (by decide)).2.1

/-- C10: whenever `find_next_available_file_path` returns a path (under
either policy), that path does not exist in the filesystem state at the
moment of return — the desired slot was free, the numbered candidate was
verified free, or the original slot was just vacated by the rename — so a
subsequent `save_contents_to_file` on it with `overwrite = false` never
hits the already-exists refusal and writes the full content. -/
theorem C10_returned_path_is_free (fs : FS) (folder name : String)
    (content : Bytes) (takeOver : Bool) (p : Pth) (fs' : FS)
    (h : find_next_available_file_path fs folder name content takeOver
        = some (some p, fs')) :
    fsLookup fs'.files p = none ∧
    fsLookup (save_contents_to_file fs' p content false).files p = some content := by
  have hfree : fsLookup fs'.files p = none := by
    rw [find_next_available_file_path] at h
    by_cases hex : fsExists (fsMkdirs fs folder).files ⟨folder, name⟩
    · rw [if_neg (by simpa using hex)] at h
      by_cases hiss : identical_or_same_size_file (fsMkdirs fs folder).files
          (.path ⟨folder, name⟩) (.bytes content)
      · rw [if_pos hiss] at h
        simp at h
      · rw [if_neg hiss] at h
        exact fnafpLoop_result_free (fsMkdirs fs folder) ⟨folder, name⟩ content
          (splitext name).1 (splitext name).2 takeOver
          (splitext_append name).symm _ 2 p fs' h
    · rw [if_pos (by simpa using hex)] at h
      simp only [Option.some.injEq, Prod.mk.injEq] at h
      obtain ⟨hp, hfs'⟩ := h
      subst hp
      subst hfs'
      cases ho : fsLookup (fsMkdirs fs folder).files ⟨folder, name⟩ with
      | none => rfl
      | some c => exact absurd (by simp [fsExists, ho]) hex
  refine ⟨hfree, ?_⟩
  rw [save_contents_to_file, if_neg (by simp [fsExists, hfree])]
  simp [fsWrite, fsLookup]

theorem C10_returned_path_is_free_witness :
    fsLookup (⟨[], ["f"]⟩ : FS).files ⟨"f", "a.png"⟩ = none ∧
    fsLookup (save_contents_to_file ⟨[], ["f"]⟩ ⟨"f", "a.png"⟩ [5] false).files
        ⟨"f", "a.png"⟩ = some [5] :=
  C10_returned_path_is_free ⟨[], []⟩ "f" "a.png" [5] false ⟨"f", "a.png"⟩
    ⟨[], ["f"]⟩ (by decide)
